import Mathlib

/-!
Verification of the real-time delivery and control-plane subsystem of the
physical-lab repository (Isaac Sim WebRTC server).

Shallow embedding: the Python source in src/ is translated into executable
Lean definitions.  Wall-clock times are rational numbers of seconds passed
explicitly to each operation (the Python reads time.time()).  NumPy arrays
are flattened row-major lists of scalar values together with a shape, a
dtype tag and a contiguity flag.  Python float values are modelled exactly
as rationals extended with NaN and the two infinities (IEEE rounding is
immaterial to the verified properties; all constants involved are exact).
-/

/-! ## Association lists (Python dict, insertion order preserved) -/

def alistGet {α : Type} (k : String) : List (String × α) → Option α
  | [] => none
  | (k2, v) :: rest => if k2 = k then some v else alistGet k rest

def alistSet {α : Type} (k : String) (v : α) : List (String × α) → List (String × α)
  | [] => [(k, v)]
  | (k2, v2) :: rest =>
      if k2 = k then (k, v) :: rest else (k2, v2) :: alistSet k v rest

/-! ## Debouncer (src/utils/debouncer.py, class Debouncer)

The Python should_execute returns a pair (should_execute, message); when a
call is suppressed, the message interpolates the per-key call counter
self._call_counts[key].  The embedding returns that counter (the only datum
the message carries besides the key and the remaining time) in place of the
formatted string. -/

structure Debouncer where
  window : ℚ
  lastCallTimes : List (String × ℚ)
  callCounts : List (String × ℕ)

/-- Debouncer.__init__(window): empty dictionaries. -/
def Debouncer.init (w : ℚ) : Debouncer :=
  { window := w, lastCallTimes := [], callCounts := [] }

/-- Debouncer.should_execute(key) with the wall clock passed explicitly.
Returns (should_execute, suppression counter carried by the message, new
state). -/
def Debouncer.shouldExecute (d : Debouncer) (key : String) (currentTime : ℚ) :
    Bool × Option ℕ × Debouncer :=
  match alistGet key d.lastCallTimes with
  | none =>
      (true, none,
        { d with
          lastCallTimes := alistSet key currentTime d.lastCallTimes
          callCounts := alistSet key 1 d.callCounts })
  | some last =>
      let elapsed := currentTime - last
      if elapsed < d.window then
        let newCount := (alistGet key d.callCounts).getD 0 + 1
        (false, some newCount,
          { d with callCounts := alistSet key newCount d.callCounts })
      else
        (true, none,
          { d with
            lastCallTimes := alistSet key currentTime d.lastCallTimes
            callCounts := alistSet key 1 d.callCounts })

/-! ## Reset command handling (src/isaac_webrtc_server.py,
WebRTCServer._handle_reset_simulation and websocket_handler)

The handler body runs under self._reset_lock.  The server listed in
websocket_handler dispatches inbound messages sequentially per connection,
and the asyncio lock serializes the handler bodies of different
connections, so in the cooperative model a batch of inbound reset commands
executes as one handler body after the other.  Nothing in the dispatch path
of the "reset" message consults the wall clock or any debounce structure
(the Debouncer class of src/utils/debouncer.py has no call site in the
server), so the arrival times of the commands are carried but ignored. -/

inductive REvent
  | setControlDisabled
  | timelineStop
  | rewindToStart
  | applyExp1Params
  | sendResetComplete
  | broadcastResetComplete
  deriving DecidableEq, Repr

structure ResetSrv where
  simulationControlEnabled : Bool
  playing : Bool
  currentTime : ℚ
  startTime : ℚ
  currentExperimentId : Option String
  trace : List REvent

/-- Body of _handle_reset_simulation (the part inside the lock). -/
def handleResetSimulation (s : ResetSrv) : ResetSrv :=
  let s1 := { s with
    simulationControlEnabled := false
    trace := s.trace ++ [REvent.setControlDisabled] }
  let s2 :=
    if s1.playing then
      { s1 with playing := false, trace := s1.trace ++ [REvent.timelineStop] }
    else s1
  let s3 := { s2 with
    currentTime := s2.startTime
    trace := s2.trace ++ [REvent.rewindToStart] }
  let s4 :=
    if s3.currentExperimentId = some "1" then
      { s3 with trace := s3.trace ++ [REvent.applyExp1Params] }
    else s3
  { s4 with trace := s4.trace ++ [REvent.sendResetComplete, REvent.broadcastResetComplete] }

inductive WsCommand
  | reset
  deriving DecidableEq, Repr

/-- Sequential processing of a batch of timestamped inbound commands.  The
timestamps are ignored because no code on the reset path reads them. -/
def runWsCommands (s : ResetSrv) : List (ℚ × WsCommand) → ResetSrv
  | [] => s
  | (_, WsCommand.reset) :: rest => runWsCommands (handleResetSimulation s) rest

/-! ## Set-mass command handling (src/isaac_webrtc_server.py,
WebRTCServer._handle_set_mass, and src/core/experiment_manager.py,
ExperimentManager.set_exp1_disk_mass)

The handler stores the value, fetches the stage, applies UsdPhysics mass
attributes to the disk and ring prims when they are valid, and sends a
confirmation.  The timeline is a separate piece of state the handler never
touches. -/

inductive MEvent
  | pauseTimeline
  | resumeTimeline
  | stopTimeline
  | setDiskMassAttr
  | setRingMassAttr
  | sendParamUpdated
  | sendError
  deriving DecidableEq, Repr

structure MassSrv where
  playing : Bool
  exp1DiskMass : ℚ
  exp1RingMass : ℚ
  stageAvailable : Bool
  diskPrimValid : Bool
  ringPrimValid : Bool
  primDiskMass : Option ℚ
  primRingMass : Option ℚ

/-- WebRTCServer._handle_set_mass(ws, value).  Returns the new state and
the list of events the handler performed, in order. -/
def handleSetMass (s : MassSrv) (value : ℚ) : MassSrv × List MEvent :=
  let s1 := { s with exp1DiskMass := value, exp1RingMass := value }
  if s1.stageAvailable = false then
    (s1, [MEvent.sendError])
  else
    let (s2, ev2) :=
      if s1.diskPrimValid then
        ({ s1 with primDiskMass := some value }, [MEvent.setDiskMassAttr])
      else (s1, [])
    let (s3, ev3) :=
      if s2.ringPrimValid then
        ({ s2 with primRingMass := some value }, [MEvent.setRingMassAttr])
      else (s2, [])
    (s3, ev2 ++ ev3 ++ [MEvent.sendParamUpdated])

/-- ExperimentManager.set_exp1_disk_mass(value): stores the value, applies
the mass attribute to the disk prim when valid, returns a success flag.
Like the server handler it never reads or changes the timeline. -/
def setExp1DiskMass (s : MassSrv) (value : ℚ) : MassSrv × Bool × List MEvent :=
  let s1 := { s with exp1DiskMass := value }
  if s1.stageAvailable = false then
    (s1, false, [])
  else if s1.diskPrimValid then
    ({ s1 with primDiskMass := some value }, true, [MEvent.setDiskMassAttr])
  else
    (s1, false, [])

/-! ## Simulation monitor auto-stop enforcement
(src/core/simulation_monitor.py, SimulationMonitor._monitor_loop, lines
127-147, and the identical block of
WebRTCServer._simulation_state_monitor, lines 2375-2393)

Each tick observes the engine playing flag, stops the timeline whenever the
access policy forbids running, and broadcasts a simulation_stopped message
with reason auto_stopped at most once per 2-second window, gated by
current_time - self._last_stop_check > 2.0. -/

structure MonState where
  autoStopEnabled : Bool
  simulationControlEnabled : Bool
  lastStopCheck : ℚ

/-- Result of one auto-stop check: the playing flag after the tick and the
time of a simulation_stopped{reason: auto_stopped} broadcast when one was
emitted. -/
structure TickOut where
  time : ℚ
  playingBefore : Bool
  playingAfter : Bool
  emitted : Option ℚ

/-- The auto-stop enforcement section of one monitor-loop iteration. -/
def autoStopCheck (st : MonState) (now : ℚ) (playing : Bool) :
    MonState × TickOut :=
  if st.autoStopEnabled = true ∧ st.simulationControlEnabled = false then
    if playing then
      if now - st.lastStopCheck > 2 then
        ({ st with lastStopCheck := now },
          { time := now, playingBefore := playing, playingAfter := false
            emitted := some now })
      else
        (st, { time := now, playingBefore := playing, playingAfter := false
               emitted := none })
    else
      (st, { time := now, playingBefore := playing, playingAfter := playing
             emitted := none })
  else
    (st, { time := now, playingBefore := playing, playingAfter := playing
           emitted := none })

/-- Run the monitor over a list of ticks; each tick carries its wall-clock
time and the externally observed playing flag. -/
def runAutoStop (st : MonState) : List (ℚ × Bool) → MonState × List TickOut
  | [] => (st, [])
  | (now, playing) :: rest =>
      ((runAutoStop (autoStopCheck st now playing).1 rest).1,
        (autoStopCheck st now playing).2 ::
          (runAutoStop (autoStopCheck st now playing).1 rest).2)

/-- The timestamps of the emitted auto_stopped broadcasts of a run. -/
def emittedTimes (os : List TickOut) : List ℚ :=
  os.filterMap (fun o => o.emitted)

/-! ## Telemetry payload (src/core/simulation_monitor.py, _monitor_loop
lines 211-234, and the identical block of
WebRTCServer._simulation_state_monitor, lines 2447-2458)

Outbound messages are JSON objects; the embedding keeps them as ordered
key/value lists with a small value universe. -/

inductive JVal
  | num (q : ℚ)
  | bool (b : Bool)
  | str (s : String)
  deriving DecidableEq, Repr

/-- The telemetry data payload built when the experiment manager exposes
the exp1 mass attributes (the hasattr branch). -/
def telemetryDataFull (now ringVel diskVel diskMass diskRadius ringMass ringRadius : ℚ) :
    List (String × JVal) :=
  let diskMoment := (1 / 2) * diskMass * (diskRadius ^ 2)
  let ringMoment := (1 / 2) * ringMass * (ringRadius ^ 2)
  let totalAngularMomentum := diskMoment * diskVel + ringMoment * ringVel
  [("timestamp", JVal.num now),
   ("fps", JVal.num 3),
   ("angular_velocity", JVal.num diskVel),
   ("disk_angular_velocity", JVal.num diskVel),
   ("ring_angular_velocity", JVal.num ringVel),
   ("angular_momentum", JVal.num totalAngularMomentum)]

/-- The basic telemetry data payload (no experiment manager parameters). -/
def telemetryDataBasic (now ringVel diskVel : ℚ) : List (String × JVal) :=
  [("timestamp", JVal.num now),
   ("fps", JVal.num 3),
   ("disk_angular_velocity", JVal.num diskVel),
   ("ring_angular_velocity", JVal.num ringVel)]

/-- The periodic simulation_state payload of the same loop (lines 150-165
of simulation_monitor.py); this separate message, not the telemetry one,
carries the running flag. -/
def simulationStatePayload (isPlaying : Bool) (currentSimTime startTime : ℚ) :
    List (String × JVal) :=
  [("type", JVal.str "simulation_state"),
   ("running", JVal.bool isPlaying),
   ("paused", JVal.bool (!isPlaying && decide (currentSimTime > startTime))),
   ("time", JVal.num currentSimTime),
   ("step", JVal.num 0)]

/-! ## WebSocket broadcast (src/isaac_webrtc_server.py,
WebRTCServer._broadcast_ws, lines 2337-2353)

self.ws_clients is a Python set; the embedding fixes an iteration order by
keeping it as a duplicate-free list of client identifiers.  A client's
send_json either succeeds or raises; the failure behaviour of each client
is an oracle passed in.  The except branch catches every send error. -/

structure BroadcastOut where
  clients : List ℕ
  delivered : List ℕ
  disconnected : List ℕ

/-- The for-loop of _broadcast_ws: per client, skip it when it equals the
exclude argument, otherwise attempt the send; a raising send puts the
client into the disconnected set instead of propagating.  Returns
(delivered, disconnected) in iteration order. -/
def broadcastLoop (sendFails : ℕ → Bool) (exclude : Option ℕ) :
    List ℕ → List ℕ × List ℕ
  | [] => ([], [])
  | c :: rest =>
      let (del, disc) := broadcastLoop sendFails exclude rest
      if exclude = some c then (del, disc)
      else if sendFails c then (del, c :: disc)
      else (c :: del, disc)

/-- WebRTCServer._broadcast_ws(message, exclude): iterate the clients,
collect the ones whose send raised, and only after the loop discard them
from self.ws_clients.  sendFails c = true means send_json to client c
raises. -/
def broadcastWs (clients : List ℕ) (sendFails : ℕ → Bool) (exclude : Option ℕ) :
    BroadcastOut :=
  { clients := clients.filter
      (fun c => decide (c ∉ (broadcastLoop sendFails exclude clients).2))
    delivered := (broadcastLoop sendFails exclude clients).1
    disconnected := (broadcastLoop sendFails exclude clients).2 }

/-! ## NumPy arrays and the frame normalizers
(src/utils/frame_validator.py, class FrameValidator, and
src/isaac_webrtc_server.py, IsaacSimVideoTrack._validate_and_fix_frame)

An ndarray is a shape, a dtype tag, the row-major flattened scalar data and
the C_CONTIGUOUS flag.  Scalars are rationals extended with NaN and the two
infinities; integer-typed arrays hold integral finite values. -/

inductive FVal
  | nan
  | pinf
  | ninf
  | fin (q : ℚ)
  deriving DecidableEq, Repr

def FVal.isNaN : FVal → Bool
  | .nan => true
  | _ => false

def FVal.isInf : FVal → Bool
  | .pinf => true
  | .ninf => true
  | _ => false

def FVal.isFinite : FVal → Bool
  | .fin _ => true
  | _ => false

/-- Finite value extraction; only applied on paths where NaN/Inf have
already been eliminated, so the default for specials is never observable
in the verified properties. -/
def FVal.toQ : FVal → ℚ
  | .fin q => q
  | _ => 0

/-- np.nan_to_num(frame, nan=0.0, posinf=1.0, neginf=0.0), per scalar. -/
def nanToNum : FVal → ℚ
  | .nan => 0
  | .pinf => 1
  | .ninf => 0
  | .fin q => q

/-- C float-to-integer conversion truncates toward zero. -/
def truncQ (x : ℚ) : ℤ :=
  if 0 ≤ x then ⌊x⌋ else ⌈x⌉

/-- Scalar astype(np.uint8): truncate toward zero, wrap modulo 256 (every
verified path keeps values inside [0, 255] before this cast). -/
def u8OfQ (x : ℚ) : ℚ :=
  ((truncQ x).emod 256 : ℤ)

/-- np.clip(x, lo, hi), per scalar. -/
def clipQ (lo hi x : ℚ) : ℚ :=
  max lo (min x hi)

def qListMin : List ℚ → ℚ
  | [] => 0
  | x :: xs => xs.foldl min x

def qListMax : List ℚ → ℚ
  | [] => 0
  | x :: xs => xs.foldl max x

inductive Dty
  | u8
  | f32
  | f64
  | u16
  | i32
  | i64
  | otherInt
  deriving DecidableEq, Repr

structure NdArray where
  shape : List ℕ
  dtype : Dty
  data : List FVal
  contig : Bool
  deriving DecidableEq, Repr

/-- numpy .size: the product of the dimensions. -/
def NdArray.size (a : NdArray) : ℕ := a.shape.prod

/-- np.zeros(shape, dtype=np.uint8). -/
def zerosU8 (shape : List ℕ) : NdArray :=
  { shape := shape, dtype := .u8
    data := List.replicate shape.prod (FVal.fin 0), contig := true }

/-- Keep the first 3 of every 4 interleaved channel values:
frame[:, :, :3].copy() on a 4-channel array. -/
def dropAlpha : List FVal → List FVal
  | a :: b :: c :: _ :: rest => a :: b :: c :: dropAlpha rest
  | l => l.take 3

/-- Replicate each scalar into 3 consecutive channel values:
np.stack([frame] * 3, axis=-1) on a 2-d array, and likewise
np.concatenate([frame] * 3, axis=-1) on an (h, w, 1) array. -/
def replicate3 (l : List FVal) : List FVal :=
  l.flatMap (fun v => [v, v, v])

/-- Python input object: None or any non-ndarray, or an ndarray. -/
inductive PyFrame
  | notArray
  | array (a : NdArray)

/-! ### FrameValidator (src/utils/frame_validator.py) -/

structure FrameValidator where
  width : ℕ
  height : ℕ

/-- FrameValidator.__init__: force both target dimensions even. -/
def FrameValidator.init (width height : ℕ) : FrameValidator :=
  { width := width - width % 2, height := height - height % 2 }

/-- FrameValidator._fix_dtype_and_range. -/
def FrameValidator.fixDtypeAndRange (V : FrameValidator) (a : NdArray) : NdArray :=
  if a.dtype = Dty.u8 then a
  else if a.dtype = Dty.f32 ∨ a.dtype = Dty.f64 then
    let hasSpecial := a.data.any (fun v => v.isNaN || v.isInf)
    let vals : List ℚ :=
      if hasSpecial then a.data.map nanToNum else a.data.map FVal.toQ
    let minVal := qListMin vals
    let maxVal := qListMax vals
    if 0 ≤ minVal ∧ maxVal ≤ 1 then
      { shape := a.shape, dtype := .u8
        data := vals.map (fun q => FVal.fin (u8OfQ (q * 255))), contig := true }
    else if 0 ≤ minVal ∧ maxVal ≤ 255 then
      { shape := a.shape, dtype := .u8
        data := vals.map (fun q => FVal.fin (u8OfQ q)), contig := true }
    else if minVal < maxVal then
      { shape := a.shape, dtype := .u8
        data := vals.map
          (fun q => FVal.fin (u8OfQ ((q - minVal) / (maxVal - minVal) * 255)))
        contig := true }
    else
      zerosU8 [V.height, V.width, 3]
  else
    { shape := a.shape, dtype := .u8
      data := a.data.map (fun v => FVal.fin (u8OfQ v.toQ)), contig := true }

/-- FrameValidator._fix_channels; ValueError becomes Except.error. -/
def fixChannels (a : NdArray) : Except String NdArray :=
  match a.shape with
  | [h, w] =>
      .ok { shape := [h, w, 3], dtype := a.dtype
            data := replicate3 a.data, contig := true }
  | [h, w, c] =>
      if c = 3 then .ok a
      else if c = 4 then
        .ok { shape := [h, w, 3], dtype := a.dtype
              data := dropAlpha a.data, contig := true }
      else if c = 1 then
        .ok { shape := [h, w, 3], dtype := a.dtype
              data := replicate3 a.data, contig := true }
      else .error "Invalid channel count"
  | _ => .error "Invalid frame dimensions"

/-- PIL Image.resize((W, H), Image.BILINEAR) followed by np.array.  The
resampled pixel values are irrelevant to every verified property (only the
output shape, dtype and contiguity are observable downstream), so PIL's
bilinear weights are abstracted to deterministic source-grid sampling with
the same shape and dtype behaviour. -/
def resampleTo (H W : ℕ) (a : NdArray) (h w c : ℕ) : NdArray :=
  { shape := [H, W, c], dtype := a.dtype
    data :=
      (List.range H).flatMap (fun i =>
        (List.range W).flatMap (fun j =>
          (List.range c).map (fun k =>
            a.data.getD (((i * h / H) * w + j * w / W) * c + k) (FVal.fin 0))))
    contig := true }

/-- FrameValidator._fix_size (HAS_PIL holds in the deployed extension, so
the RuntimeError branch for a missing PIL is not modelled). -/
def FrameValidator.fixSize (V : FrameValidator) (a : NdArray) : Except String NdArray :=
  match a.shape with
  | [h, w, c] =>
      if h = V.height ∧ w = V.width then .ok a
      else .ok (resampleTo V.height V.width a h w c)
  | _ => .error "shape unavailable"

/-- FrameValidator.validate_and_fix: None and non-arrays are rejected, an
empty array is rejected, then dtype, channels, size and contiguity are
fixed in order; any exception and any final shape or dtype mismatch gives
None. -/
def FrameValidator.validateAndFix (V : FrameValidator) : PyFrame → Option NdArray
  | .notArray => none
  | .array a =>
      if a.size = 0 then none
      else
        match fixChannels (V.fixDtypeAndRange a) with
        | .error _ => none
        | .ok f2 =>
            match V.fixSize f2 with
            | .error _ => none
            | .ok f3 =>
                let f4 :=
                  if f3.contig = false then { f3 with contig := true } else f3
                if f4.shape = [V.height, V.width, 3] then
                  if f4.dtype = Dty.u8 then some f4 else none
                else none

/-! ### IsaacSimVideoTrack._validate_and_fix_frame
(src/isaac_webrtc_server.py, lines 363-474) -/

structure VideoTrackCfg where
  width : ℕ
  height : ℕ

/-- IsaacSimVideoTrack.__init__: force both dimensions even. -/
def VideoTrackCfg.init (width height : ℕ) : VideoTrackCfg :=
  { width := width - width % 2, height := height - height % 2 }

/-- IsaacSimVideoTrack._generate_safe_frame: a green (0, 128, 0) fill of
the target size. -/
def generateSafeFrame (T : VideoTrackCfg) : NdArray :=
  { shape := [T.height, T.width, 3], dtype := .u8
    data := (List.replicate (T.height * T.width)
      [FVal.fin 0, FVal.fin 128, FVal.fin 0]).flatten
    contig := true }

/-- Step 3 of _validate_and_fix_frame: dtype and range handling.  It
differs from FrameValidator._fix_dtype_and_range by clipping the two
in-range float branches, by range-normalizing the listed wide integer
dtypes, and by the shapes of the two zero-fill fallbacks. -/
def trackFixDtype (T : VideoTrackCfg) (a : NdArray) : NdArray :=
  if a.dtype = Dty.u8 then a
  else if a.dtype = Dty.f32 ∨ a.dtype = Dty.f64 then
    let hasSpecial := a.data.any (fun v => v.isNaN || v.isInf)
    let vals : List ℚ :=
      if hasSpecial then a.data.map nanToNum else a.data.map FVal.toQ
    let minVal := qListMin vals
    let maxVal := qListMax vals
    if maxVal ≤ 1 ∧ 0 ≤ minVal then
      { shape := a.shape, dtype := .u8
        data := vals.map (fun q => FVal.fin (u8OfQ (clipQ 0 255 (q * 255))))
        contig := true }
    else if maxVal ≤ 255 ∧ 0 ≤ minVal then
      { shape := a.shape, dtype := .u8
        data := vals.map (fun q => FVal.fin (u8OfQ (clipQ 0 255 q)))
        contig := true }
    else if ¬(maxVal = minVal) then
      { shape := a.shape, dtype := .u8
        data := vals.map
          (fun q => FVal.fin (u8OfQ ((q - minVal) / (maxVal - minVal) * 255)))
        contig := true }
    else
      { shape := a.shape, dtype := .u8
        data := List.replicate a.shape.prod (FVal.fin 0), contig := true }
  else if a.dtype = Dty.u16 ∨ a.dtype = Dty.i32 ∨ a.dtype = Dty.i64 then
    let vals : List ℚ := a.data.map FVal.toQ
    let minVal := qListMin vals
    let maxVal := qListMax vals
    if ¬(maxVal = minVal) then
      { shape := a.shape, dtype := .u8
        data := vals.map
          (fun q => FVal.fin (u8OfQ ((q - minVal) / (maxVal - minVal) * 255)))
        contig := true }
    else
      zerosU8 [T.height, T.width, 3]
  else
    { shape := a.shape, dtype := .u8
      data := a.data.map (fun v => FVal.fin (u8OfQ v.toQ)), contig := true }

/-- Step 4 of _validate_and_fix_frame: channel handling; none signals the
return of the safe frame. -/
def trackFixChannels (a : NdArray) : Option NdArray :=
  match a.shape with
  | [h, w] =>
      some { shape := [h, w, 3], dtype := a.dtype
             data := replicate3 a.data, contig := true }
  | [h, w, c] =>
      if c = 4 then
        some { shape := [h, w, 3], dtype := a.dtype
               data := dropAlpha a.data, contig := true }
      else if c = 1 then
        some { shape := [h, w, 3], dtype := a.dtype
               data := replicate3 a.data, contig := true }
      else if c = 3 then some a
      else none
  | _ => none

/-- IsaacSimVideoTrack._validate_and_fix_frame: total; every failure path
degrades to the safe frame, and steps 5-8 force even target size, 3
channels, contiguity and uint8. -/
def validateAndFixFrame (T : VideoTrackCfg) : PyFrame → NdArray
  | .notArray => generateSafeFrame T
  | .array a0 =>
      if a0.size = 0 then generateSafeFrame T
      else
        let a := trackFixDtype T a0
        match trackFixChannels a with
        | none => generateSafeFrame T
        | some b =>
            let r :=
              match b.shape with
              | [h, w, c] =>
                  if h = T.height ∧ w = T.width then b
                  else resampleTo T.height T.width b h w c
              | _ => b
            let r2 := if r.contig = false then { r with contig := true } else r
            if r2.shape = [T.height, T.width, 3] then
              if r2.dtype = Dty.u8 then r2
              else
                { r2 with
                  dtype := .u8
                  data := r2.data.map (fun v => FVal.fin (u8OfQ v.toQ))
                  contig := true }
            else generateSafeFrame T

/-! ## Zero-crossing period estimator -/

/-- Modelled from the spec: no zero-crossing period estimator exists under
src/ (no telemetry code tracks sign flips); this state follows section 4.3
of the spec verbatim: the sign of the monitored angle, the recorded
(time, flipDirection) pairs, and the last up-to-3 accepted period samples,
both lists most recent first. -/
structure ZCState where
  lastSign : Int
  flips : List (ℚ × Int)
  accepted : List ℚ

/-- Modelled from the spec: one estimator step at sample time t with angle
sign sgn.  On a sign flip, record (t, flipDirection), retain only the last
10 seconds of flips, take the period as the delta between the two most
recent flips sharing the same direction, accept it only inside the
plausible bound 0.3 to 10 s, and keep the last 3 accepted samples. -/
def zcStep (st : ZCState) (t : ℚ) (sgn : Int) : ZCState :=
  if sgn = 0 then st
  else if st.lastSign = 0 ∨ sgn = st.lastSign then
    { st with lastSign := sgn }
  else
    let prevSame := (st.flips.filter (fun p => p.2 = sgn ∧ t - p.1 ≤ 10)).head?
    let accepted :=
      match prevSame with
      | some prev =>
          let period := t - prev.1
          if 3 / 10 ≤ period ∧ period ≤ 10 then (period :: st.accepted).take 3
          else st.accepted
      | none => st.accepted
    { lastSign := sgn
      flips := ((t, sgn) :: st.flips).filter (fun p => t - p.1 ≤ 10)
      accepted := accepted }

/-- Modelled from the spec: the smoothed period estimate, the simple moving
average of the accepted samples. -/
def ZCState.estimate (st : ZCState) : Option ℚ :=
  if st.accepted.isEmpty then none
  else some (st.accepted.sum / st.accepted.length)

/-- Modelled from the spec: run the estimator over timestamped angle
signs. -/
def zcRun (samples : List (ℚ × Int)) : ZCState :=
  samples.foldl (fun st p => zcStep st p.1 p.2) { lastSign := 0, flips := [], accepted := [] }

/-- Sample time of the k-th sample of the synthetic test signal: 0.25 s
sampling step. -/
def zcTime (k : ℕ) : ℚ := k / 4

/-- The sign of sin(pi * zcTime k), hence of A sin(2 pi (zcTime k) / T)
for A > 0 and T = 2: zero at integer times, positive on even intervals
(2m, 2m+1), negative on odd ones. -/
def expSign (k : ℕ) : Int :=
  if k % 4 = 0 then 0
  else if (k / 4) % 2 = 0 then 1
  else -1

/-! # Helper lemmas -/

theorem alistGet_set_self {α : Type} (k : String) (v : α) (l : List (String × α)) :
    alistGet k (alistSet k v l) = some v := by
  induction l with
  | nil => simp [alistGet, alistSet]
  | cons hd tl ih =>
      obtain ⟨k2, v2⟩ := hd
      by_cases h : k2 = k
      · simp [alistGet, alistSet, h]
      · simp [alistGet, alistSet, h, ih]

theorem count_rewind_handleReset (s : ResetSrv) :
    (handleResetSimulation s).trace.count REvent.rewindToStart =
      s.trace.count REvent.rewindToStart + 1 := by
  unfold handleResetSimulation
  by_cases hp : s.playing = true <;>
    by_cases he : s.currentExperimentId = some "1" <;>
      simp [hp, he, List.count_append, List.count_cons, List.count_nil]

/-! # Claim theorems -/

/-- C2 counterexample: two reset commands arriving 100 ms apart both
execute a full reset sequence (the trace rewinds the timeline twice), so
the claim that exactly one underlying reset sequence runs is false on the
code: no debounce window exists on the reset path. -/
theorem c2_reset_not_debounced :
    ((runWsCommands
        { simulationControlEnabled := true, playing := true, currentTime := 5
          startTime := 0, currentExperimentId := some "1", trace := [] }
        [(0, WsCommand.reset), (1 / 10, WsCommand.reset)]).trace.count
      REvent.rewindToStart) = 2 ∧
    ¬ ((runWsCommands
        { simulationControlEnabled := true, playing := true, currentTime := 5
          startTime := 0, currentExperimentId := some "1", trace := [] }
        [(0, WsCommand.reset), (1 / 10, WsCommand.reset)]).trace.count
      REvent.rewindToStart) = 1 := by
  constructor
  · rfl
  · decide

/-- C2 amended: two reset commands, at any two arrival times, execute two
complete underlying reset sequences, one strictly after the other (the
asyncio reset lock serializes them); neither is dropped, because the
dispatch path of the reset message contains no debounce check. -/
theorem c2_reset_serialized (s : ResetSrv) (t1 t2 : ℚ) :
    runWsCommands s [(t1, WsCommand.reset), (t2, WsCommand.reset)] =
      handleResetSimulation (handleResetSimulation s) ∧
    (runWsCommands s [(t1, WsCommand.reset), (t2, WsCommand.reset)]).trace.count
        REvent.rewindToStart = s.trace.count REvent.rewindToStart + 2 := by
  refine ⟨rfl, ?_⟩
  show (handleResetSimulation (handleResetSimulation s)).trace.count
      REvent.rewindToStart = s.trace.count REvent.rewindToStart + 2
  rw [count_rewind_handleReset, count_rewind_handleReset]

/-- C4 counterexample: with a fresh key, on the first suppressed call
inside the window the Debouncer reports a counter of 2, not 1 (the per-key
counter starts at 1 on the accepted call and counts the suppressed call as
its second occurrence). -/
theorem c4_first_suppression_reports_two :
    (((Debouncer.init (1 / 2)).shouldExecute "reset" 0).2.2.shouldExecute
        "reset" (1 / 10)).1 = false ∧
    (((Debouncer.init (1 / 2)).shouldExecute "reset" 0).2.2.shouldExecute
        "reset" (1 / 10)).2.1 = some 2 ∧
    ¬ ((((Debouncer.init (1 / 2)).shouldExecute "reset" 0).2.2.shouldExecute
        "reset" (1 / 10)).2.1 = some 1) := by
  norm_num [Debouncer.shouldExecute, Debouncer.init, alistGet, alistSet]

/-- C4 amended: for a fresh key the first call is accepted; calls inside
the window are rejected with the counter reporting 2 on the first
suppression (the counter includes the accepted call) and incrementing per
further suppression; a call at or past the end of the window, measured
from the accepted call, is accepted again and resets the stored window
start and the counter to 1. -/
theorem c4_debounce_counter (d : Debouncer) (key : String) (t0 ε ε2 δ : ℚ)
    (hfresh : alistGet key d.lastCallTimes = none)
    (hε : ε < d.window) (hε2 : ε2 < d.window) (hδ : d.window ≤ δ) :
    let r1 := d.shouldExecute key t0
    let r2 := r1.2.2.shouldExecute key (t0 + ε)
    let r3 := r2.2.2.shouldExecute key (t0 + ε2)
    let r4 := r3.2.2.shouldExecute key (t0 + δ)
    r1.1 = true ∧ r1.2.1 = none ∧
    r2.1 = false ∧ r2.2.1 = some 2 ∧
    r3.1 = false ∧ r3.2.1 = some 3 ∧
    r4.1 = true ∧
    alistGet key r4.2.2.lastCallTimes = some (t0 + δ) ∧
    alistGet key r4.2.2.callCounts = some 1 := by
  have e1 : d.shouldExecute key t0 =
      (true, none,
        { d with
          lastCallTimes := alistSet key t0 d.lastCallTimes
          callCounts := alistSet key 1 d.callCounts }) := by
    simp [Debouncer.shouldExecute, hfresh]
  have e2 :
      ({ d with
          lastCallTimes := alistSet key t0 d.lastCallTimes
          callCounts := alistSet key 1 d.callCounts } : Debouncer).shouldExecute
        key (t0 + ε) =
      (false, some 2,
        { d with
          lastCallTimes := alistSet key t0 d.lastCallTimes
          callCounts := alistSet key 2 (alistSet key 1 d.callCounts) }) := by
    simp [Debouncer.shouldExecute, alistGet_set_self, add_sub_cancel_left, hε]
  have e3 :
      ({ d with
          lastCallTimes := alistSet key t0 d.lastCallTimes
          callCounts := alistSet key 2 (alistSet key 1 d.callCounts) } :
            Debouncer).shouldExecute key (t0 + ε2) =
      (false, some 3,
        { d with
          lastCallTimes := alistSet key t0 d.lastCallTimes
          callCounts :=
            alistSet key 3 (alistSet key 2 (alistSet key 1 d.callCounts)) }) := by
    simp [Debouncer.shouldExecute, alistGet_set_self, add_sub_cancel_left, hε2]
  have hnot : ¬ (δ < d.window) := not_lt.mpr hδ
  have e4 :
      ({ d with
          lastCallTimes := alistSet key t0 d.lastCallTimes
          callCounts :=
            alistSet key 3 (alistSet key 2 (alistSet key 1 d.callCounts)) } :
            Debouncer).shouldExecute key (t0 + δ) =
      (true, none,
        { d with
          lastCallTimes :=
            alistSet key (t0 + δ) (alistSet key t0 d.lastCallTimes)
          callCounts :=
            alistSet key 1
              (alistSet key 3 (alistSet key 2 (alistSet key 1 d.callCounts))) }) := by
    simp [Debouncer.shouldExecute, alistGet_set_self, add_sub_cancel_left, hnot]
  simp [e1, e2, e3, e4, alistGet_set_self]

/-- C6 counterexample: with the stage available, both prims valid and the
simulation advancing, _handle_set_mass applies the mass mutation at once:
the play state stays true throughout and the handler performs no pause and
no resume, contradicting the claimed pause-mutate-resume sequence. -/
theorem c6_mass_set_while_advancing :
    (handleSetMass
      { playing := true, exp1DiskMass := 1, exp1RingMass := 1
        stageAvailable := true, diskPrimValid := true, ringPrimValid := true
        primDiskMass := none, primRingMass := none } 5).1.playing = true ∧
    MEvent.setDiskMassAttr ∈ (handleSetMass
      { playing := true, exp1DiskMass := 1, exp1RingMass := 1
        stageAvailable := true, diskPrimValid := true, ringPrimValid := true
        primDiskMass := none, primRingMass := none } 5).2 ∧
    MEvent.pauseTimeline ∉ (handleSetMass
      { playing := true, exp1DiskMass := 1, exp1RingMass := 1
        stageAvailable := true, diskPrimValid := true, ringPrimValid := true
        primDiskMass := none, primRingMass := none } 5).2 := by
  refine ⟨rfl, ?_, ?_⟩ <;> simp [handleSetMass]

/-- C6 amended: the set-mass handler (and the experiment manager's
set_exp1_disk_mass) mutates the physical parameter unconditionally, also
while the simulation is advancing: it never pauses, resumes or stops the
timeline, and the play state is unchanged by the call. -/
theorem c6_set_mass_never_pauses (s : MassSrv) (v : ℚ)
    (hstage : s.stageAvailable = true) (hdisk : s.diskPrimValid = true) :
    (handleSetMass s v).1.playing = s.playing ∧
    MEvent.pauseTimeline ∉ (handleSetMass s v).2 ∧
    MEvent.resumeTimeline ∉ (handleSetMass s v).2 ∧
    MEvent.stopTimeline ∉ (handleSetMass s v).2 ∧
    MEvent.setDiskMassAttr ∈ (handleSetMass s v).2 ∧
    (setExp1DiskMass s v).1.playing = s.playing ∧
    MEvent.pauseTimeline ∉ (setExp1DiskMass s v).2.2 ∧
    MEvent.setDiskMassAttr ∈ (setExp1DiskMass s v).2.2 := by
  by_cases hring : s.ringPrimValid = true <;>
    simp [handleSetMass, setExp1DiskMass, hstage, hdisk, hring]

/-- C6 witness. -/
theorem c6_set_mass_never_pauses_witness :
    let s : MassSrv :=
      { playing := true, exp1DiskMass := 1, exp1RingMass := 1
        stageAvailable := true, diskPrimValid := true, ringPrimValid := false
        primDiskMass := none, primRingMass := none }
    (handleSetMass s 3).1.playing = s.playing ∧
    MEvent.pauseTimeline ∉ (handleSetMass s 3).2 ∧
    MEvent.resumeTimeline ∉ (handleSetMass s 3).2 ∧
    MEvent.stopTimeline ∉ (handleSetMass s 3).2 ∧
    MEvent.setDiskMassAttr ∈ (handleSetMass s 3).2 ∧
    (setExp1DiskMass s 3).1.playing = s.playing ∧
    MEvent.pauseTimeline ∉ (setExp1DiskMass s 3).2.2 ∧
    MEvent.setDiskMassAttr ∈ (setExp1DiskMass s 3).2.2 :=
  c6_set_mass_never_pauses _ 3 rfl rfl

/-- C7 counterexample: a telemetry data payload carries a timestamp but no
is_running key, so the claim that every telemetry sample contains an
is_running flag is false at this concrete sample. -/
theorem c7_telemetry_lacks_is_running :
    "timestamp" ∈ (telemetryDataFull 100 1 2 1 1 1 1).map Prod.fst ∧
    "is_running" ∉ (telemetryDataFull 100 1 2 1 1 1 1).map Prod.fst := by
  constructor <;> simp [telemetryDataFull]

/-- C7 amended: every telemetry data payload, in both the full and the
basic schema, carries a timestamp and no is_running flag; the running
state travels in the separate simulation_state message under the key
running. -/
theorem c7_telemetry_keys (now ringVel diskVel dm dr rm rr cst sst : ℚ)
    (isPlaying : Bool) :
    "timestamp" ∈ (telemetryDataFull now ringVel diskVel dm dr rm rr).map Prod.fst ∧
    "timestamp" ∈ (telemetryDataBasic now ringVel diskVel).map Prod.fst ∧
    "is_running" ∉ (telemetryDataFull now ringVel diskVel dm dr rm rr).map Prod.fst ∧
    "is_running" ∉ (telemetryDataBasic now ringVel diskVel).map Prod.fst ∧
    "running" ∈ (simulationStatePayload isPlaying cst sst).map Prod.fst := by
  refine ⟨?_, ?_, ?_, ?_, ?_⟩ <;>
    simp [telemetryDataFull, telemetryDataBasic, simulationStatePayload]

theorem broadcastLoop_spec (fails : ℕ → Bool) (exclude : Option ℕ)
    (clients : List ℕ) :
    (broadcastLoop fails exclude clients).1 =
      clients.filter (fun c => !(decide (exclude = some c)) && !(fails c)) ∧
    (broadcastLoop fails exclude clients).2 =
      clients.filter (fun c => !(decide (exclude = some c)) && fails c) := by
  induction clients with
  | nil => simp [broadcastLoop]
  | cons c rest ih =>
      obtain ⟨ih1, ih2⟩ := ih
      by_cases hx : exclude = some c
      · subst hx
        simp [broadcastLoop, ih1, ih2]
      · by_cases hf : fails c = true <;>
          simp [broadcastLoop, hx, hf, ih1, ih2]

/-- C8: one broadcast attempts a send to every current subscriber (each
one is either delivered to or recorded as disconnected, so a raising send
neither aborts the iteration nor propagates); the subscriber set is only
pruned of the failed subscribers after the iteration; a subscriber whose
send succeeded receives this and the next broadcast, while a subscriber
whose send failed is removed and receives no further broadcast. -/
theorem c8_broadcast_isolates_failures (clients : List ℕ)
    (fails fails2 : ℕ → Bool) (c : ℕ) (hc : c ∈ clients) :
    (∀ x ∈ clients,
        x ∈ (broadcastWs clients fails none).delivered ∨
        x ∈ (broadcastWs clients fails none).disconnected) ∧
    (broadcastWs clients fails none).clients =
      clients.filter (fun x => !(fails x)) ∧
    (fails c = false → c ∈ (broadcastWs clients fails none).delivered) ∧
    (fails c = false → fails2 c = false →
      c ∈ (broadcastWs (broadcastWs clients fails none).clients
            fails2 none).delivered) ∧
    (fails c = true →
      c ∉ (broadcastWs clients fails none).clients ∧
      c ∉ (broadcastWs (broadcastWs clients fails none).clients
            fails2 none).delivered) := by
  have hdel := (broadcastLoop_spec fails none clients).1
  have hdisc := (broadcastLoop_spec fails none clients).2
  have hclients : (broadcastWs clients fails none).clients =
      clients.filter (fun x => !(fails x)) := by
    show clients.filter _ = _
    rw [List.filter_congr]
    intro x hx
    simp only [hdisc, List.mem_filter, decide_eq_true_eq, Option.some.injEq]
    by_cases hfx : fails x = true <;> simp [hfx, hx]
  refine ⟨?_, hclients, ?_, ?_, ?_⟩
  · intro x hx
    show x ∈ (broadcastLoop fails none clients).1 ∨
      x ∈ (broadcastLoop fails none clients).2
    rw [hdel, hdisc]
    by_cases hfx : fails x = true
    · right; simp [List.mem_filter, hx, hfx]
    · left; simp [List.mem_filter, hx, hfx]
  · intro hfc
    show c ∈ (broadcastLoop fails none clients).1
    rw [hdel]
    simp [List.mem_filter, hc, hfc]
  · intro hfc hfc2
    show c ∈ (broadcastLoop fails2 none (broadcastWs clients fails none).clients).1
    rw [(broadcastLoop_spec fails2 none _).1, hclients]
    simp [List.mem_filter, hc, hfc, hfc2]
  · intro hfc
    have h1 : c ∉ (broadcastWs clients fails none).clients := by
      rw [hclients]
      simp [List.mem_filter, hfc]
    refine ⟨h1, ?_⟩
    show c ∉ (broadcastLoop fails2 none (broadcastWs clients fails none).clients).1
    rw [(broadcastLoop_spec fails2 none _).1, hclients]
    simp [List.mem_filter, hfc]

/-- C8 witness. -/
theorem c8_broadcast_isolates_failures_witness :
    (∀ x ∈ [1, 2, 3],
        x ∈ (broadcastWs [1, 2, 3] (fun n => decide (n = 2)) none).delivered ∨
        x ∈ (broadcastWs [1, 2, 3] (fun n => decide (n = 2)) none).disconnected) ∧
    (broadcastWs [1, 2, 3] (fun n => decide (n = 2)) none).clients =
      [1, 2, 3].filter (fun x => !(decide (x = 2))) ∧
    ((fun n => decide (n = 2)) 3 = false →
      3 ∈ (broadcastWs [1, 2, 3] (fun n => decide (n = 2)) none).delivered) ∧
    ((fun n => decide (n = 2)) 3 = false → (fun _ : ℕ => false) 3 = false →
      3 ∈ (broadcastWs
            (broadcastWs [1, 2, 3] (fun n => decide (n = 2)) none).clients
            (fun _ => false) none).delivered) ∧
    ((fun n => decide (n = 2)) 3 = true →
      3 ∉ (broadcastWs [1, 2, 3] (fun n => decide (n = 2)) none).clients ∧
      3 ∉ (broadcastWs
            (broadcastWs [1, 2, 3] (fun n => decide (n = 2)) none).clients
            (fun _ => false) none).delivered) :=
  c8_broadcast_isolates_failures [1, 2, 3] (fun n => decide (n = 2))
    (fun _ => false) 3 (by decide)

theorem autoStopCheck_flags (st : MonState) (now : ℚ) (playing : Bool) :
    (autoStopCheck st now playing).1.autoStopEnabled = st.autoStopEnabled ∧
    (autoStopCheck st now playing).1.simulationControlEnabled =
      st.simulationControlEnabled := by
  unfold autoStopCheck
  split_ifs <;> exact ⟨rfl, rfl⟩

theorem autoStopCheck_stops (st : MonState) (now : ℚ) (p : Bool)
    (h1 : st.autoStopEnabled = true) (h2 : st.simulationControlEnabled = false)
    (hp : (autoStopCheck st now p).2.playingBefore = true) :
    (autoStopCheck st now p).2.playingAfter = false := by
  unfold autoStopCheck at hp ⊢
  cases p with
  | false => simp_all
  | true => simp only [h1, h2]; split_ifs <;> simp_all

theorem autoStopCheck_emit (st : MonState) (now : ℚ) (p : Bool) :
    ((autoStopCheck st now p).2.emitted = none ∧
      (autoStopCheck st now p).1.lastStopCheck = st.lastStopCheck) ∨
    ((autoStopCheck st now p).2.emitted = some now ∧
      (autoStopCheck st now p).1.lastStopCheck = now ∧
      st.lastStopCheck + 2 < now) := by
  unfold autoStopCheck
  split_ifs with hflags hplay hgate
  · right
    exact ⟨rfl, rfl, by linarith⟩
  · left; exact ⟨rfl, rfl⟩
  · left; exact ⟨rfl, rfl⟩
  · left; exact ⟨rfl, rfl⟩

theorem runAutoStop_forces_stop (st : MonState) (ticks : List (ℚ × Bool))
    (h1 : st.autoStopEnabled = true) (h2 : st.simulationControlEnabled = false) :
    ∀ o ∈ (runAutoStop st ticks).2, o.playingBefore = true →
      o.playingAfter = false := by
  induction ticks generalizing st with
  | nil => simp [runAutoStop]
  | cons tp rest ih =>
      obtain ⟨now, p⟩ := tp
      intro o ho hb
      simp only [runAutoStop, List.mem_cons] at ho
      rcases ho with ho | ho
      · subst ho
        exact autoStopCheck_stops st now p h1 h2 hb
      · have hf := autoStopCheck_flags st now p
        exact ih (autoStopCheck st now p).1 (hf.1.trans h1) (hf.2.trans h2) o ho hb

theorem runAutoStop_chain (st : MonState) (ticks : List (ℚ × Bool)) :
    List.Chain (fun a b => a + 2 < b) st.lastStopCheck
      (emittedTimes (runAutoStop st ticks).2) := by
  induction ticks generalizing st with
  | nil => simp [runAutoStop, emittedTimes]
  | cons tp rest ih =>
      obtain ⟨now, p⟩ := tp
      simp only [runAutoStop, emittedTimes, List.filterMap_cons]
      rcases autoStopCheck_emit st now p with ⟨he, hl⟩ | ⟨he, hl, hgap⟩
      · rw [he]
        have := ih (autoStopCheck st now p).1
        rw [hl] at this
        exact this
      · rw [he]
        refine List.Chain.cons hgap ?_
        have := ih (autoStopCheck st now p).1
        rw [hl] at this
        exact this

theorem chain_two_sep_window (a : ℚ) (es : List ℚ)
    (h : List.Chain (fun x y => x + 2 < y) a es) (w : ℚ) :
    (es.filter (fun τ => decide (w ≤ τ) && decide (τ < w + 2))).length ≤ 1 := by
  haveI : IsTrans ℚ (fun x y => x + 2 < y) :=
    ⟨fun x y z hxy hyz => by linarith⟩
  have hp : (a :: es).Pairwise (fun x y => x + 2 < y) :=
    List.chain_iff_pairwise.mp h
  have hp2 : es.Pairwise (fun x y => x + 2 < y) := hp.of_cons
  have hp3 := hp2.filter (fun τ => decide (w ≤ τ) && decide (τ < w + 2))
  cases hfl : es.filter (fun τ => decide (w ≤ τ) && decide (τ < w + 2)) with
  | nil => simp
  | cons x t =>
      cases t with
      | nil => simp
      | cons y zs =>
          exfalso
          rw [hfl] at hp3
          have hxy : x + 2 < y := (List.pairwise_cons.mp hp3).1 y (by simp)
          have hx : x ∈ es.filter (fun τ => decide (w ≤ τ) && decide (τ < w + 2)) := by
            rw [hfl]; simp
          have hy : y ∈ es.filter (fun τ => decide (w ≤ τ) && decide (τ < w + 2)) := by
            rw [hfl]; simp
          have px := List.of_mem_filter hx
          have py := List.of_mem_filter hy
          simp only [Bool.and_eq_true, decide_eq_true_eq] at px py
          linarith [px.1, py.2]

/-- C3: whenever the access policy flags forbid running, every monitor
tick that observes the engine advancing leaves it stopped at the end of
that tick, and over any run of ticks the auto_stopped broadcasts are more
than 2 seconds apart, so any 2-second window contains at most one of them,
no matter how many ticks detected the violation. -/
theorem c3_auto_stop_enforcement (st : MonState) (ticks : List (ℚ × Bool))
    (h1 : st.autoStopEnabled = true)
    (h2 : st.simulationControlEnabled = false) :
    (∀ o ∈ (runAutoStop st ticks).2, o.playingBefore = true →
      o.playingAfter = false) ∧
    ∀ w : ℚ, ((emittedTimes (runAutoStop st ticks).2).filter
        (fun τ => decide (w ≤ τ) && decide (τ < w + 2))).length ≤ 1 :=
  ⟨runAutoStop_forces_stop st ticks h1 h2,
    fun w => chain_two_sep_window st.lastStopCheck _ (runAutoStop_chain st ticks) w⟩

/-- C3 witness. -/
theorem c3_auto_stop_enforcement_witness :
    (∀ o ∈ (runAutoStop
        { autoStopEnabled := true, simulationControlEnabled := false
          lastStopCheck := 0 }
        [(10, true), (21 / 2, true), (11, true)]).2,
      o.playingBefore = true → o.playingAfter = false) ∧
    ∀ w : ℚ, ((emittedTimes (runAutoStop
        { autoStopEnabled := true, simulationControlEnabled := false
          lastStopCheck := 0 }
        [(10, true), (21 / 2, true), (11, true)]).2).filter
        (fun τ => decide (w ≤ τ) && decide (τ < w + 2))).length ≤ 1 :=
  c3_auto_stop_enforcement
    { autoStopEnabled := true, simulationControlEnabled := false
      lastStopCheck := 0 }
    [(10, true), (21 / 2, true), (11, true)] rfl rfl

theorem contig_fix_contig (f3 : NdArray) :
    (if f3.contig = false then { f3 with contig := true } else f3).contig = true := by
  cases hcv : f3.contig <;> simp [hcv]

theorem validateAndFix_canonical (V : FrameValidator) (f : PyFrame) (r : NdArray)
    (h : V.validateAndFix f = some r) :
    r.shape = [V.height, V.width, 3] ∧ r.dtype = Dty.u8 ∧ r.contig = true := by
  cases f with
  | notArray => simp [FrameValidator.validateAndFix] at h
  | array a =>
      simp only [FrameValidator.validateAndFix] at h
      by_cases hsz : a.size = 0
      · simp [hsz] at h
      rw [if_neg hsz] at h
      cases hch : fixChannels (V.fixDtypeAndRange a) with
      | error e => simp [hch] at h
      | ok f2 =>
          simp only [hch] at h
          cases hfs : V.fixSize f2 with
          | error e => simp [hfs] at h
          | ok f3 =>
              simp only [hfs] at h
              have hcon := contig_fix_contig f3
              generalize hg :
                (if f3.contig = false then { f3 with contig := true } else f3) =
                  f4 at h hcon
              split_ifs at h with hsh hdt
              obtain rfl := Option.some.inj h.symm
              exact ⟨hsh, hdt, hcon⟩

theorem validateAndFix_fixedPoint (V : FrameValidator) (r : NdArray)
    (hH : 0 < V.height) (hW : 0 < V.width)
    (hsh : r.shape = [V.height, V.width, 3]) (hdt : r.dtype = Dty.u8)
    (hc : r.contig = true) :
    V.validateAndFix (PyFrame.array r) = some r := by
  have hsz : ¬ r.size = 0 := by
    simp only [NdArray.size, hsh, List.prod_cons, List.prod_nil]
    positivity
  have h1 : V.fixDtypeAndRange r = r := by
    unfold FrameValidator.fixDtypeAndRange
    rw [if_pos hdt]
  have h2 : fixChannels r = Except.ok r := by
    unfold fixChannels
    rw [hsh]
    simp
  have h3 : V.fixSize r = Except.ok r := by
    unfold FrameValidator.fixSize
    rw [hsh]
    simp
  simp only [FrameValidator.validateAndFix, hsz, if_false, h1, h2, h3, hc]
  simp [hsh, hdt]

theorem generateSafeFrame_canonical (T : VideoTrackCfg) :
    (generateSafeFrame T).shape = [T.height, T.width, 3] ∧
    (generateSafeFrame T).dtype = Dty.u8 ∧
    (generateSafeFrame T).contig = true := by
  simp [generateSafeFrame]

theorem validateAndFixFrame_canonical (T : VideoTrackCfg) (f : PyFrame) :
    (validateAndFixFrame T f).shape = [T.height, T.width, 3] ∧
    (validateAndFixFrame T f).dtype = Dty.u8 ∧
    (validateAndFixFrame T f).contig = true := by
  cases f with
  | notArray =>
      simpa [validateAndFixFrame] using generateSafeFrame_canonical T
  | array a0 =>
      simp only [validateAndFixFrame]
      by_cases hsz : a0.size = 0
      · simpa [hsz] using generateSafeFrame_canonical T
      rw [if_neg hsz]
      cases hch : trackFixChannels (trackFixDtype T a0) with
      | none => simpa using generateSafeFrame_canonical T
      | some b =>
          simp only []
          generalize (match b.shape with
            | [h, w, c] =>
                if h = T.height ∧ w = T.width then b
                else resampleTo T.height T.width b h w c
            | _ => b) = r0
          have hcon := contig_fix_contig r0
          generalize hg :
            (if r0.contig = false then { r0 with contig := true } else r0) =
              r2 at hcon
          by_cases hsh : r2.shape = [T.height, T.width, 3]
          · rw [if_pos hsh]
            by_cases hdt : r2.dtype = Dty.u8
            · rw [if_pos hdt]
              exact ⟨hsh, hdt, hcon⟩
            · rw [if_neg hdt]
              exact ⟨hsh, rfl, rfl⟩
          · rw [if_neg hsh]
            exact generateSafeFrame_canonical T

theorem validateAndFixFrame_fixedPoint (T : VideoTrackCfg) (r : NdArray)
    (hH : 0 < T.height) (hW : 0 < T.width)
    (hsh : r.shape = [T.height, T.width, 3]) (hdt : r.dtype = Dty.u8)
    (hc : r.contig = true) :
    validateAndFixFrame T (PyFrame.array r) = r := by
  have hsz : ¬ r.size = 0 := by
    simp only [NdArray.size, hsh, List.prod_cons, List.prod_nil]
    positivity
  have h1 : trackFixDtype T r = r := by
    unfold trackFixDtype
    rw [if_pos hdt]
  have h2 : trackFixChannels r = some r := by
    unfold trackFixChannels
    rw [hsh]
    simp
  simp only [validateAndFixFrame, hsz, if_false, h1, h2]
  simp [hsh, hc, hdt]

theorem dropAlpha_mem : ∀ (l : List FVal) (v : FVal), v ∈ dropAlpha l → v ∈ l
  | [], v, hv => by simp [dropAlpha] at hv
  | [a], v, hv => by simpa [dropAlpha] using hv
  | [a, b], v, hv => by simpa [dropAlpha] using hv
  | [a, b, c], v, hv => by simpa [dropAlpha] using hv
  | a :: b :: c :: d :: rest, v, hv => by
      simp only [dropAlpha, List.mem_cons] at hv ⊢
      rcases hv with h | h | h | h
      · exact Or.inl h
      · exact Or.inr (Or.inl h)
      · exact Or.inr (Or.inr (Or.inl h))
      · exact Or.inr (Or.inr (Or.inr (Or.inr (dropAlpha_mem rest v h))))

theorem replicate3_mem (l : List FVal) (v : FVal) :
    v ∈ replicate3 l ↔ v ∈ l := by
  simp [replicate3, List.mem_flatMap, eq_comm]

theorem getD_mem_or (l : List FVal) (n : ℕ) (d : FVal) :
    l.getD n d ∈ l ∨ l.getD n d = d := by
  rcases h : l[n]? with _ | x
  · right
    simp [List.getD_eq_getElem?_getD, h]
  · left
    obtain ⟨hn, hx⟩ := List.getElem?_eq_some.mp h
    have hm : x ∈ l := hx ▸ List.getElem_mem hn
    simpa [List.getD_eq_getElem?_getD, h] using hm

theorem resampleTo_data_mem (H W : ℕ) (a : NdArray) (h w c : ℕ) (v : FVal)
    (hv : v ∈ (resampleTo H W a h w c).data) : v ∈ a.data ∨ v = FVal.fin 0 := by
  simp only [resampleTo, List.mem_flatMap, List.mem_map] at hv
  obtain ⟨i, _, j, _, k, _, rfl⟩ := hv
  exact getD_mem_or _ _ _

theorem fixDtypeAndRange_float_finite (V : FrameValidator) (a : NdArray)
    (hf : a.dtype = Dty.f32 ∨ a.dtype = Dty.f64) :
    ∀ v ∈ (V.fixDtypeAndRange a).data, v.isFinite = true := by
  have hne : ¬ a.dtype = Dty.u8 := by rcases hf with h | h <;> simp [h]
  unfold FrameValidator.fixDtypeAndRange
  rw [if_neg hne, if_pos hf]
  intro v hv
  dsimp only at hv
  split_ifs at hv <;>
    simp only [List.mem_map, zerosU8, List.mem_replicate] at hv <;>
    obtain ⟨q, -, rfl⟩ := hv <;> rfl

theorem fixChannels_finite (a b : NdArray) (h : fixChannels a = Except.ok b)
    (hfin : ∀ v ∈ a.data, v.isFinite = true) :
    ∀ v ∈ b.data, v.isFinite = true := by
  unfold fixChannels at h
  cases hsh : a.shape with
  | nil => rw [hsh] at h; simp at h
  | cons h1 t1 =>
      cases t1 with
      | nil => rw [hsh] at h; simp at h
      | cons w1 t2 =>
          cases t2 with
          | nil =>
              rw [hsh] at h
              simp only [Except.ok.injEq] at h
              intro v hv
              rw [← h] at hv
              simp only [] at hv
              exact hfin v ((replicate3_mem a.data v).mp hv)
          | cons c1 t3 =>
              cases t3 with
              | cons x t4 => rw [hsh] at h; simp at h
              | nil =>
                  rw [hsh] at h
                  simp only [] at h
                  split_ifs at h with hc3 hc4 hc1 <;>
                    simp only [Except.ok.injEq] at h
                  · rw [← h]; exact hfin
                  · intro v hv
                    rw [← h] at hv
                    simp only [] at hv
                    exact hfin v (dropAlpha_mem a.data v hv)
                  · intro v hv
                    rw [← h] at hv
                    simp only [] at hv
                    exact hfin v ((replicate3_mem a.data v).mp hv)

theorem fixSize_finite (V : FrameValidator) (a b : NdArray)
    (h : V.fixSize a = Except.ok b)
    (hfin : ∀ v ∈ a.data, v.isFinite = true) :
    ∀ v ∈ b.data, v.isFinite = true := by
  unfold FrameValidator.fixSize at h
  cases hsh : a.shape with
  | nil => rw [hsh] at h; simp at h
  | cons h1 t1 =>
      cases t1 with
      | nil => rw [hsh] at h; simp at h
      | cons w1 t2 =>
          cases t2 with
          | cons c1 t3 =>
              cases t3 with
              | cons x t4 => rw [hsh] at h; simp at h
              | nil =>
                  rw [hsh] at h
                  simp only [] at h
                  split_ifs at h with heq <;>
                    simp only [Except.ok.injEq] at h
                  · rw [← h]; exact hfin
                  · intro v hv
                    rw [← h] at hv
                    rcases resampleTo_data_mem V.height V.width a h1 w1 c1 v hv with
                      hm | hz
                    · exact hfin v hm
                    · rw [hz]; rfl
          | nil => rw [hsh] at h; simp at h

/-- C1 counterexample: FrameValidator.validate_and_fix is not total onto
canonical frames: a non-array input and an empty buffer both yield None
instead of a flat-color safe frame. -/
theorem c1_validator_not_total :
    (FrameValidator.init 4 4).validateAndFix PyFrame.notArray = none ∧
    (FrameValidator.init 4 4).validateAndFix (PyFrame.array
      { shape := [0], dtype := Dty.f32, data := [], contig := true }) = none := by
  constructor
  · rfl
  · simp [FrameValidator.validateAndFix, NdArray.size]

/-- C1 amended: the total flat-color-degrading normalizer is the video
track's _validate_and_fix_frame: for every input it returns a frame of
even target height and width, 3 channels, uint8 and contiguous, and it is
idempotent on its own output; FrameValidator.validate_and_fix instead
returns None on invalid input, and every frame it does return is a fixed
point of a second application. -/
theorem c1_normalizer_total_idempotent (w h : ℕ) (hw : 2 ≤ w) (hh : 2 ≤ h)
    (T : VideoTrackCfg) (hT : T = VideoTrackCfg.init w h)
    (V : FrameValidator) (hV : V = FrameValidator.init w h) :
    (∀ f, (validateAndFixFrame T f).shape = [T.height, T.width, 3] ∧
        (validateAndFixFrame T f).dtype = Dty.u8 ∧
        (validateAndFixFrame T f).contig = true) ∧
    T.height % 2 = 0 ∧ T.width % 2 = 0 ∧
    (∀ f, validateAndFixFrame T (PyFrame.array (validateAndFixFrame T f)) =
        validateAndFixFrame T f) ∧
    (∀ f r, V.validateAndFix f = some r →
        V.validateAndFix (PyFrame.array r) = some r) := by
  subst hT hV
  have hH : 0 < (VideoTrackCfg.init w h).height := by
    simp only [VideoTrackCfg.init]
    omega
  have hW : 0 < (VideoTrackCfg.init w h).width := by
    simp only [VideoTrackCfg.init]
    omega
  have hH2 : 0 < (FrameValidator.init w h).height := by
    simp only [FrameValidator.init]
    omega
  have hW2 : 0 < (FrameValidator.init w h).width := by
    simp only [FrameValidator.init]
    omega
  refine ⟨fun f => validateAndFixFrame_canonical _ f, ?_, ?_, ?_, ?_⟩
  · simp only [VideoTrackCfg.init]
    omega
  · simp only [VideoTrackCfg.init]
    omega
  · intro f
    obtain ⟨hsh, hdt, hc⟩ := validateAndFixFrame_canonical (VideoTrackCfg.init w h) f
    exact validateAndFixFrame_fixedPoint _ _ hH hW hsh hdt hc
  · intro f r hr
    obtain ⟨hsh, hdt, hc⟩ := validateAndFix_canonical _ f r hr
    exact validateAndFix_fixedPoint _ r hH2 hW2 hsh hdt hc

/-- C1 witness. -/
theorem c1_normalizer_total_idempotent_witness :
    (∀ f, (validateAndFixFrame (VideoTrackCfg.init 4 4) f).shape =
        [(VideoTrackCfg.init 4 4).height, (VideoTrackCfg.init 4 4).width, 3] ∧
        (validateAndFixFrame (VideoTrackCfg.init 4 4) f).dtype = Dty.u8 ∧
        (validateAndFixFrame (VideoTrackCfg.init 4 4) f).contig = true) ∧
    (VideoTrackCfg.init 4 4).height % 2 = 0 ∧
    (VideoTrackCfg.init 4 4).width % 2 = 0 ∧
    (∀ f, validateAndFixFrame (VideoTrackCfg.init 4 4)
        (PyFrame.array (validateAndFixFrame (VideoTrackCfg.init 4 4) f)) =
        validateAndFixFrame (VideoTrackCfg.init 4 4) f) ∧
    (∀ f r, (FrameValidator.init 4 4).validateAndFix f = some r →
        (FrameValidator.init 4 4).validateAndFix (PyFrame.array r) = some r) :=
  c1_normalizer_total_idempotent 4 4 (by norm_num) (by norm_num) _ rfl _ rfl

/-- C10: the constructor stores the even dimensions width - width % 2 and
height - height % 2; every frame validate_and_fix returns has shape
(height, width, 3) with those even dimensions and uint8 dtype; a non-array
input and any empty array yield None. -/
theorem c10_validator_invariant (w h : ℕ) (V : FrameValidator)
    (hV : V = FrameValidator.init w h) :
    (V.width = w - w % 2 ∧ V.height = h - h % 2 ∧
      V.width % 2 = 0 ∧ V.height % 2 = 0) ∧
    (∀ f r, V.validateAndFix f = some r →
        r.shape = [V.height, V.width, 3] ∧ r.dtype = Dty.u8) ∧
    V.validateAndFix PyFrame.notArray = none ∧
    (∀ a : NdArray, a.size = 0 → V.validateAndFix (PyFrame.array a) = none) := by
  subst hV
  refine ⟨⟨rfl, rfl, ?_, ?_⟩, ?_, rfl, ?_⟩
  · simp only [FrameValidator.init]
    omega
  · simp only [FrameValidator.init]
    omega
  · intro f r hr
    obtain ⟨hsh, hdt, _⟩ := validateAndFix_canonical _ f r hr
    exact ⟨hsh, hdt⟩
  · intro a ha
    simp [FrameValidator.validateAndFix, ha]

/-- C10 witness. -/
theorem c10_validator_invariant_witness :
    ((FrameValidator.init 6 5).width = 6 - 6 % 2 ∧
      (FrameValidator.init 6 5).height = 5 - 5 % 2 ∧
      (FrameValidator.init 6 5).width % 2 = 0 ∧
      (FrameValidator.init 6 5).height % 2 = 0) ∧
    (∀ f r, (FrameValidator.init 6 5).validateAndFix f = some r →
        r.shape = [(FrameValidator.init 6 5).height,
          (FrameValidator.init 6 5).width, 3] ∧ r.dtype = Dty.u8) ∧
    (FrameValidator.init 6 5).validateAndFix PyFrame.notArray = none ∧
    (∀ a : NdArray, a.size = 0 →
      (FrameValidator.init 6 5).validateAndFix (PyFrame.array a) = none) :=
  c10_validator_invariant 6 5 _ rfl

/-- C5 amended: for floating-point frames the NaN and negative-infinity
entries are replaced with 0 but positive infinity with 1 before the range
detection (np.nan_to_num(nan=0.0, posinf=1.0, neginf=0.0)), and every
frame the validator returns for a floating-point input holds only finite
values. -/
theorem c5_nan_inf_replacement (V : FrameValidator) (a : NdArray)
    (hf : a.dtype = Dty.f32 ∨ a.dtype = Dty.f64) :
    (nanToNum FVal.nan = 0 ∧ nanToNum FVal.ninf = 0 ∧ nanToNum FVal.pinf = 1) ∧
    ∀ r, V.validateAndFix (PyFrame.array a) = some r →
      ∀ v ∈ r.data, v.isFinite = true := by
  refine ⟨⟨rfl, rfl, rfl⟩, ?_⟩
  intro r hr
  simp only [FrameValidator.validateAndFix] at hr
  by_cases hsz : a.size = 0
  · simp [hsz] at hr
  rw [if_neg hsz] at hr
  cases hch : fixChannels (V.fixDtypeAndRange a) with
  | error e => simp [hch] at hr
  | ok f2 =>
      simp only [hch] at hr
      cases hfs : V.fixSize f2 with
      | error e => simp [hfs] at hr
      | ok f3 =>
          simp only [hfs] at hr
          have hfin2 := fixChannels_finite _ _ hch
            (fixDtypeAndRange_float_finite V a hf)
          have hfin3 := fixSize_finite V _ _ hfs hfin2
          have hdata :
              (if f3.contig = false then { f3 with contig := true } else f3).data
                = f3.data := by
            cases hcv : f3.contig <;> simp [hcv]
          generalize hg :
            (if f3.contig = false then { f3 with contig := true } else f3) =
              f4 at hr hdata
          split_ifs at hr with hsh hdt
          obtain rfl := Option.some.inj hr.symm
          rw [hdata]
          exact hfin3

/-- C5 witness. -/
theorem c5_nan_inf_replacement_witness :
    (nanToNum FVal.nan = 0 ∧ nanToNum FVal.ninf = 0 ∧ nanToNum FVal.pinf = 1) ∧
    ∀ r, (FrameValidator.init 2 2).validateAndFix (PyFrame.array
      { shape := [2, 2], dtype := Dty.f64
        data := [FVal.pinf, FVal.nan, FVal.ninf, FVal.fin 0]
        contig := true }) = some r →
      ∀ v ∈ r.data, v.isFinite = true :=
  c5_nan_inf_replacement (FrameValidator.init 2 2)
    { shape := [2, 2], dtype := Dty.f64
      data := [FVal.pinf, FVal.nan, FVal.ninf, FVal.fin 0]
      contig := true } (Or.inr rfl)

/-- C5 counterexample: positive infinity is replaced with 1, not 0, so a
float frame holding only positive infinities normalizes to a full-white
255 frame where the claim predicts an all-zero one. -/
theorem c5_posinf_not_zero :
    nanToNum FVal.pinf = 1 ∧ ¬ nanToNum FVal.pinf = 0 ∧
    (FrameValidator.init 2 2).validateAndFix (PyFrame.array
      { shape := [2, 2], dtype := Dty.f64
        data := [FVal.pinf, FVal.pinf, FVal.pinf, FVal.pinf]
        contig := true }) =
    some { shape := [2, 2, 3], dtype := Dty.u8
           data := [FVal.fin 255, FVal.fin 255, FVal.fin 255, FVal.fin 255,
             FVal.fin 255, FVal.fin 255, FVal.fin 255, FVal.fin 255,
             FVal.fin 255, FVal.fin 255, FVal.fin 255, FVal.fin 255]
           contig := true } := by
  refine ⟨rfl, by simp [nanToNum], ?_⟩
  have hq1 : ¬ (Dty.f64 = Dty.u8) := by decide
  have hq2 : (Dty.f64 = Dty.f32 ∨ Dty.f64 = Dty.f64) := Or.inr rfl
  norm_num [FrameValidator.validateAndFix, FrameValidator.init,
    FrameValidator.fixDtypeAndRange, fixChannels, FrameValidator.fixSize,
    NdArray.size, qListMin, qListMax, nanToNum, FVal.isNaN, FVal.isInf,
    FVal.toQ, u8OfQ, truncQ, replicate3, hq1, hq2]

theorem sin_pos_on_even (m : ℕ) (x : ℝ) (h1 : 2 * m < x) (h2 : x < 2 * m + 1) :
    0 < Real.sin (Real.pi * x) := by
  have hper : Real.sin (Real.pi * x) = Real.sin (Real.pi * (x - 2 * m)) := by
    have hx : Real.pi * x = Real.pi * (x - 2 * m) + m * (2 * Real.pi) := by ring
    rw [hx, (Real.sin_periodic.nat_mul m) _]
  rw [hper]
  apply Real.sin_pos_of_pos_of_lt_pi
  · have : (0 : ℝ) < x - 2 * m := by linarith
    positivity
  · have hlt : x - 2 * m < 1 := by linarith
    calc Real.pi * (x - 2 * m) < Real.pi * 1 :=
          mul_lt_mul_of_pos_left hlt Real.pi_pos
      _ = Real.pi := mul_one _

theorem sin_neg_on_odd (m : ℕ) (x : ℝ) (h1 : 2 * m + 1 < x) (h2 : x < 2 * m + 2) :
    Real.sin (Real.pi * x) < 0 := by
  have key : Real.sin (Real.pi * x) =
      - Real.sin (Real.pi * (x - 2 * m - 1)) := by
    have hx : Real.pi * x =
        (Real.pi * (x - 2 * m - 1) + Real.pi) + m * (2 * Real.pi) := by ring
    rw [hx, (Real.sin_periodic.nat_mul m) _, Real.sin_add_pi]
  have hpos : 0 < Real.sin (Real.pi * (x - 2 * m - 1)) := by
    apply Real.sin_pos_of_pos_of_lt_pi
    · have : (0 : ℝ) < x - 2 * m - 1 := by linarith
      positivity
    · have hlt : x - 2 * m - 1 < 1 := by linarith
      calc Real.pi * (x - 2 * m - 1) < Real.pi * 1 :=
            mul_lt_mul_of_pos_left hlt Real.pi_pos
        _ = Real.pi := mul_one _
  rw [key]
  linarith

theorem sin_sign_of_sample (k : ℕ) :
    (k % 4 = 0 → Real.sin (Real.pi * ((zcTime k : ℚ) : ℝ)) = 0) ∧
    (¬ k % 4 = 0 → (k / 4) % 2 = 0 →
      0 < Real.sin (Real.pi * ((zcTime k : ℚ) : ℝ))) ∧
    (¬ k % 4 = 0 → (k / 4) % 2 = 1 →
      Real.sin (Real.pi * ((zcTime k : ℚ) : ℝ)) < 0) := by
  have hcast : ((zcTime k : ℚ) : ℝ) = (k : ℝ) / 4 := by
    simp [zcTime]
  rw [hcast]
  refine ⟨?_, ?_, ?_⟩
  · intro hz
    obtain ⟨j, hj⟩ := Nat.dvd_of_mod_eq_zero hz
    subst hj
    have : ((4 * j : ℕ) : ℝ) / 4 = (j : ℝ) := by push_cast; ring
    rw [this, mul_comm]
    exact Real.sin_nat_mul_pi j
  · intro hz hm
    obtain ⟨m2, hm2⟩ := Nat.dvd_of_mod_eq_zero hm
    apply sin_pos_on_even m2
    · have hlow : 4 * (k / 4) < k := by omega
      have heq : (2 * m2 : ℝ) = ((k / 4 : ℕ) : ℝ) := by
        rw [hm2]; push_cast; ring
      have h4 : (4 : ℝ) * ((k / 4 : ℕ) : ℝ) < (k : ℝ) := by exact_mod_cast hlow
      linarith
    · have hhigh : k < 4 * (k / 4) + 4 := by omega
      have heq : (2 * m2 : ℝ) = ((k / 4 : ℕ) : ℝ) := by
        rw [hm2]; push_cast; ring
      have h4 : (k : ℝ) < 4 * ((k / 4 : ℕ) : ℝ) + 4 := by exact_mod_cast hhigh
      linarith
  · intro hz hm
    have hm2 : ∃ m2, k / 4 = 2 * m2 + 1 := ⟨k / 4 / 2, by omega⟩
    obtain ⟨m2, hme⟩ := hm2
    apply sin_neg_on_odd m2
    · have hlow : 4 * (k / 4) < k := by omega
      have heq : (2 * m2 + 1 : ℝ) = ((k / 4 : ℕ) : ℝ) := by
        rw [hme]; push_cast; ring
      have h4 : (4 : ℝ) * ((k / 4 : ℕ) : ℝ) < (k : ℝ) := by exact_mod_cast hlow
      linarith
    · have hhigh : k < 4 * (k / 4) + 4 := by omega
      have heq : (2 * m2 + 1 : ℝ) = ((k / 4 : ℕ) : ℝ) := by
        rw [hme]; push_cast; ring
      have h4 : (k : ℝ) < 4 * ((k / 4 : ℕ) : ℝ) + 4 := by exact_mod_cast hhigh
      linarith

set_option maxHeartbeats 3200000 in
/-- C9: the spec's zero-crossing estimator, run on the sign samples of the
synthetic signal A sin(2 pi t / T) with T = 2 s sampled every 0.25 s,
reaches an estimate within 5 percent of T at every horizon from 2 full
periods (16 samples) up to the sampled horizon of 5 s. -/
theorem c9_zero_crossing_period (A : ℝ) (hA : 0 < A) (s : ℕ → Int)
    (hs : ∀ k, 1 ≤ k → k ≤ 20 →
      ((0 < A * Real.sin (2 * Real.pi * ((zcTime k : ℚ) : ℝ) / 2) → s k = 1) ∧
       (A * Real.sin (2 * Real.pi * ((zcTime k : ℚ) : ℝ) / 2) < 0 → s k = -1) ∧
       (A * Real.sin (2 * Real.pi * ((zcTime k : ℚ) : ℝ) / 2) = 0 → s k = 0)))
    (n : ℕ) (h1 : 16 ≤ n) (h2 : n ≤ 20) :
    ∃ p : ℚ,
      (zcRun ((List.range' 1 n).map (fun k => (zcTime k, s k)))).estimate =
        some p ∧
      |p - 2| ≤ (5 / 100) * 2 := by
  have hpin : ∀ k, 1 ≤ k → k ≤ 20 → s k = expSign k := by
    intro k hk1 hk2
    obtain ⟨c1, c2, c3⟩ := hs k hk1 hk2
    have hsin := sin_sign_of_sample k
    have h2pi : 2 * Real.pi * ((zcTime k : ℚ) : ℝ) / 2 =
        Real.pi * ((zcTime k : ℚ) : ℝ) := by ring
    rw [h2pi] at c1 c2 c3
    by_cases hz : k % 4 = 0
    · have h0 := hsin.1 hz
      have hv := c3 (by rw [h0, mul_zero])
      rw [hv]
      simp [expSign, hz]
    · rcases Nat.mod_two_eq_zero_or_one (k / 4) with hm | hm
      · have hpos := hsin.2.1 hz hm
        have hv := c1 (mul_pos hA hpos)
        rw [hv]
        simp [expSign, hz, hm]
      · have hneg := hsin.2.2 hz hm
        have hv := c2 (mul_neg_of_pos_of_neg hA hneg)
        rw [hv]
        simp [expSign, hz, hm]
  have hmap : (List.range' 1 n).map (fun k => (zcTime k, s k)) =
      (List.range' 1 n).map (fun k => (zcTime k, expSign k)) := by
    apply List.map_congr_left
    intro k hk
    rw [List.mem_range'_1] at hk
    rw [hpin k hk.1 (by omega)]
  rw [hmap]
  refine ⟨2, ?_, by norm_num⟩
  interval_cases n <;>
    norm_num [zcRun, zcStep, zcTime, expSign, ZCState.estimate, List.range',
      List.foldl, List.filter, List.take, List.sum, List.head?, List.isEmpty]

theorem expSign_consistent : ∀ k, 1 ≤ k → k ≤ 20 →
    ((0 < (1 : ℝ) * Real.sin (2 * Real.pi * ((zcTime k : ℚ) : ℝ) / 2) →
        expSign k = 1) ∧
     ((1 : ℝ) * Real.sin (2 * Real.pi * ((zcTime k : ℚ) : ℝ) / 2) < 0 →
        expSign k = -1) ∧
     ((1 : ℝ) * Real.sin (2 * Real.pi * ((zcTime k : ℚ) : ℝ) / 2) = 0 →
        expSign k = 0)) := by
  intro k h1 h2
  have hsin := sin_sign_of_sample k
  have h2pi : 2 * Real.pi * ((zcTime k : ℚ) : ℝ) / 2 =
      Real.pi * ((zcTime k : ℚ) : ℝ) := by ring
  rw [h2pi, one_mul]
  by_cases hz : k % 4 = 0
  · have h0 := hsin.1 hz
    rw [h0]
    refine ⟨fun hc => absurd hc (by norm_num),
      fun hc => absurd hc (by norm_num), fun _ => by simp [expSign, hz]⟩
  · rcases Nat.mod_two_eq_zero_or_one (k / 4) with hm | hm
    · have hpos := hsin.2.1 hz hm
      refine ⟨fun _ => by simp [expSign, hz, hm],
        fun hc => absurd hpos (by linarith),
        fun hc => absurd hpos (by linarith)⟩
    · have hneg := hsin.2.2 hz hm
      refine ⟨fun hc => absurd hneg (by linarith),
        fun _ => by simp [expSign, hz, hm],
        fun hc => absurd hneg (by linarith)⟩

/-- C9 witness. -/
theorem c9_zero_crossing_period_witness :
    ∃ p : ℚ,
      (zcRun ((List.range' 1 16).map
        (fun k => (zcTime k, expSign k)))).estimate = some p ∧
      |p - 2| ≤ (5 / 100) * 2 :=
  c9_zero_crossing_period 1 one_pos expSign expSign_consistent 16
    (by norm_num) (by norm_num)

/-- C4 witness. -/
theorem c4_debounce_counter_witness :
    let r1 := (Debouncer.init (1 / 2)).shouldExecute "k" 0
    let r2 := r1.2.2.shouldExecute "k" (0 + 1 / 10)
    let r3 := r2.2.2.shouldExecute "k" (0 + 1 / 5)
    let r4 := r3.2.2.shouldExecute "k" (0 + 1 / 2)
    r1.1 = true ∧ r1.2.1 = none ∧
    r2.1 = false ∧ r2.2.1 = some 2 ∧
    r3.1 = false ∧ r3.2.1 = some 3 ∧
    r4.1 = true ∧
    alistGet "k" r4.2.2.lastCallTimes = some (0 + 1 / 2) ∧
    alistGet "k" r4.2.2.callCounts = some 1 :=
  c4_debounce_counter (Debouncer.init (1 / 2)) "k" 0 (1 / 10) (1 / 5) (1 / 2)
    rfl (by norm_num [Debouncer.init]) (by norm_num [Debouncer.init])
    (by norm_num [Debouncer.init])
